import Mathlib

/- Shallow embedding of src/pages/2_fit.py, the OLS fit-statistics page.

   The core routine is gen_lin_data (lines 56-104): seed the random
   generator, draw N regressor values uniformly from [-10, 10), draw N
   normal(0, sd) disturbances, form y = X.(b0, b1) + eps over the design
   X = [1 x], fit OLS, and return the data, fitted values, confidence
   intervals, residual standard error and the fitted model.  All
   arithmetic is embedded over the rationals.  Square roots and the
   Student-t quantile are irrational, so quantities the source defines
   through them are carried as their exact rational squares or by a
   documented deterministic surrogate; no verified claim inspects those
   numeric values. -/

/-- Modelled from the spec: one step of np.random's seeded generator
(spec section 4.1 steps 1-3).  numpy's exact Mersenne-Twister stream is
library code outside the repository; per the spec it is "a deterministic
pseudo-random generator" seeded with randomSeed, modelled here by a
multiplicative linear-congruential step on 31-bit states.  Seed 0 is a
fixed point of the step, a concrete instance of the spec's "pathological
seeds" whose draws are all identical. -/
def lcg (s : ℕ) : ℕ := s * 1103515245 % 2 ^ 31

/-- Generator state after k+1 steps from the seed (np.random.seed at
line 57 makes the whole stream a function of rseed alone). -/
def rngAt (rseed : ℕ) : ℕ → ℕ
  | 0 => lcg rseed
  | k + 1 => lcg (rngAt rseed k)

/-- Affine map of a generator state into [lo, hi): np.random.uniform's
scaling of a unit draw (line 60 draws uniform(-10, 10, (N, 1))). -/
def uniform (lo hi : ℚ) (v : ℕ) : ℚ := lo + (hi - lo) * ((v : ℚ) / 2 ^ 31)

/-- Modelled from the spec: a standard-normal draw (spec section 4.1
step 3).  The normal inverse cdf is transcendental; the model keeps what
the claims use, a deterministic value varying with the generator state. -/
def stdn (v : ℕ) : ℚ := 2 * ((v : ℚ) / 2 ^ 31) - 1

/-- Regressor column X[:, 1] (line 60): the i-th uniform draw. -/
def xval (rseed i : ℕ) : ℚ := uniform (-10) 10 (rngAt rseed i)

/-- Disturbances eps = np.random.normal(0, sd, N) (line 64): the stream
positions after the N regressor draws, scaled by sd (a normal(0, sd)
variate is sd times a standard one). -/
def epsval (sd : ℚ) (N rseed i : ℕ) : ℚ := sd * stdn (rngAt rseed (N + i))

/-- Response y = np.dot(X, [b0, b1]) + eps (line 67), row-wise
y_i = b0 + b1 * x_i + eps_i. -/
def yval (b0 b1 sd : ℚ) (N rseed : ℕ) (i : ℕ) : ℚ :=
  b0 + b1 * xval rseed i + epsval sd N rseed i

/-- np.mean of the first n entries of an array modelled as an index
function (y_bar, line 92). -/
def npMean (n : ℕ) (f : ℕ → ℚ) : ℚ := (∑ i in Finset.range n, f i) / n

/-- Centered second moment of the regressor column, Sxx. -/
def sxxOf (n : ℕ) (x : ℕ → ℚ) : ℚ :=
  ∑ i in Finset.range n, (x i - npMean n x) ^ 2

/-- Centered cross moment of regressor and response, Sxy. -/
def sxyOf (n : ℕ) (x y : ℕ → ℚ) : ℚ :=
  ∑ i in Finset.range n, (x i - npMean n x) * (y i - npMean n y)

/-- Slope estimate of sm.OLS(y, X).fit() (line 70).  For the two-column
design X = [1 x] the least-squares solution b = (X'X)^(-1)X'y (spec
section 4.1 step 5) is the textbook simple-regression form b1 = Sxy/Sxx.
When Sxx = 0 (a singular design) the rational division convention yields
b1 = 0 and hence b0 = y_bar: these are not pinv's minimum-norm
coefficients, but they give the same fitted values (the projection of y
on the column span, here the constant vector y_bar), so every derived
quantity the claims inspect agrees with the source also in that case. -/
def b1Of (n : ℕ) (x y : ℕ → ℚ) : ℚ := sxyOf n x y / sxxOf n x

/-- Intercept estimate of the fitted model: b0 = y_bar - b1 * x_bar. -/
def b0Of (n : ℕ) (x y : ℕ → ℚ) : ℚ := npMean n y - b1Of n x y * npMean n x

/-- Fitted values y_hat = predictions.predicted_mean = X.b (line 74). -/
def yhatOf (n : ℕ) (x y : ℕ → ℚ) (i : ℕ) : ℚ := b0Of n x y + b1Of n x y * x i

/-- Residuals e = y - y_hat (line 88). -/
def residOf (n : ℕ) (x y : ℕ → ℚ) (i : ℕ) : ℚ := y i - yhatOf n x y i

/-- Sum of squared residuals np.sum(e**2) (line 89); ss_res at line 94 is
the same sum since it also sums (y - y_hat)**2. -/
def sseOf (n : ℕ) (x y : ℕ → ℚ) : ℚ :=
  ∑ i in Finset.range n, residOf n x y i ^ 2

/-- Square of s = np.sqrt(np.sum(e**2) / deg_freedom) (line 89), with
deg_freedom = n - K in Python's signed arithmetic (line 79).  The square
root is irrational, so the embedding carries the exact radicand; the
source's s is its square root. -/
def sSqOf (n : ℕ) (x y : ℕ → ℚ) : ℚ := sseOf n x y / ((n : ℚ) - 2)

/-- Total sum of squares ss_tot = np.sum((y - y_bar)**2) (line 93). -/
def ssTotOf (n : ℕ) (y : ℕ → ℚ) : ℚ :=
  ∑ i in Finset.range n, (y i - npMean n y) ^ 2

/-- r_squared = 1 - ss_res / ss_tot (line 95).  model.rsquared, displayed
at line 306, is the same centered-total-sum-of-squares formula. -/
def rSqOf (n : ℕ) (x y : ℕ → ℚ) : ℚ := 1 - sseOf n x y / ssTotOf n y

/-- Regression sum of squares, the centered fitted variation
(the page's Section 4 displays SSR as the sum of (y_hat_i - y_bar)^2). -/
def ssrOf (n : ℕ) (x y : ℕ → ℚ) : ℚ :=
  ∑ i in Finset.range n, (yhatOf n x y i - npMean n y) ^ 2

/-- Leverage of row i for the design X = [1 x]: the quadratic form
x_i'(X'X)^(-1)x_i = 1/n + (x_i - x_bar)^2/Sxx appearing inside
predictions.se_mean (line 75). -/
def leverageOf (n : ℕ) (x : ℕ → ℚ) (i : ℕ) : ℚ :=
  1 / (n : ℚ) + (x i - npMean n x) ^ 2 / sxxOf n x

/-- Modelled from the spec: the 95 percent confidence-interval half-width
t * se(y_hat_i) of predictions.conf_int (line 78; spec section 4.1
step 7).  Both the Student-t quantile and the square root inside
se(y_hat_i) are irrational, and no verified claim inspects the
half-width's numeric value (only the row count, the x-ordering of the
band, and determinism), so it is a deterministic rational surrogate built
from the same statistics: twice the squared standard error of the fitted
mean, s^2 times the leverage. -/
def ciHalfOf (n : ℕ) (x y : ℕ → ℚ) (i : ℕ) : ℚ :=
  2 * (sSqOf n x y * leverageOf n x i)

/-- Result bundle of gen_lin_data (lines 97-104): the returned dict
{y, x, s, y_hat, ci, model}.  xMat is the n-by-2 design matrix as rows
(1, x_i) built at line 61; s is carried as its square sSq; the model
entry is carried as the fitted coefficients model.params (read at lines
178-179 and 222-225), the squares of the coefficient standard errors
model.bse (lines 227-229), and model.rsquared (line 306), their true
values involving irrational roots.  resid carries the residual array e
computed at line 88. -/
structure SimResult where
  xMat : List (ℚ × ℚ)
  y : List ℚ
  yHat : List ℚ
  resid : List ℚ
  ci : List (ℚ × ℚ)
  b0Est : ℚ
  b1Est : ℚ
  bse0Sq : ℚ
  bse1Sq : ℚ
  sSq : ℚ
  rSq : ℚ
deriving DecidableEq, Repr

/-- The bundle assembled by a run of gen_lin_data (lines 56-104) on the
arguments (b0, b1, sd, N, rseed). -/
def mkResult (b0 b1 sd : ℚ) (N rseed : ℕ) : SimResult :=
  { xMat := (List.range N).map (fun i => (1, xval rseed i))
    y := (List.range N).map (yval b0 b1 sd N rseed)
    yHat := (List.range N).map (yhatOf N (xval rseed) (yval b0 b1 sd N rseed))
    resid := (List.range N).map (residOf N (xval rseed) (yval b0 b1 sd N rseed))
    ci := (List.range N).map (fun i =>
      (yhatOf N (xval rseed) (yval b0 b1 sd N rseed) i -
        ciHalfOf N (xval rseed) (yval b0 b1 sd N rseed) i,
       yhatOf N (xval rseed) (yval b0 b1 sd N rseed) i +
        ciHalfOf N (xval rseed) (yval b0 b1 sd N rseed) i))
    b0Est := b0Of N (xval rseed) (yval b0 b1 sd N rseed)
    b1Est := b1Of N (xval rseed) (yval b0 b1 sd N rseed)
    bse0Sq := sSqOf N (xval rseed) (yval b0 b1 sd N rseed) *
      (1 / (N : ℚ) + npMean N (xval rseed) ^ 2 / sxxOf N (xval rseed))
    bse1Sq := sSqOf N (xval rseed) (yval b0 b1 sd N rseed) / sxxOf N (xval rseed)
    sSq := sSqOf N (xval rseed) (yval b0 b1 sd N rseed)
    rSq := rSqOf N (xval rseed) (yval b0 b1 sd N rseed) }

/-- Failure taxonomy.  invalidSampleSize, invalidVariance and
computationError are the error conditions named by the spec (section 7);
valueError is the ValueError numpy's normal sampler raises for a negative
scale, the only failure the source body can actually produce. -/
inductive GenError where
  | invalidSampleSize
  | invalidVariance
  | computationError
  | valueError
deriving DecidableEq, Repr

/-- gen_lin_data (lines 56-104).  The body performs no input validation:
the only failure path is np.random.normal raising ValueError when the
scale sd is negative (line 64); every other input reaches the arithmetic
and returns the bundle. -/
def gen_lin_data (b0 b1 sd : ℚ) (N rseed : ℕ) : Except GenError SimResult :=
  if sd < 0 then .error .valueError else .ok (mkResult b0 b1 sd N rseed)

/-- The fitted-line dataset handed to ax.plot (lines 186-191): the pairs
(x_i, y_hat_i) in draw order; the source passes x[:, 1] and y_hat there
without sorting. -/
def fittedLineData (r : SimResult) : List (ℚ × ℚ) :=
  (r.xMat.map Prod.snd).zip r.yHat

/-- The band rows (x_i, ci_lower_i, ci_upper_i) in draw order: the three
arrays of lines 193-196 before reindexing. -/
def bandRows (r : SimResult) : List (ℚ × ℚ × ℚ) :=
  ((r.xMat.map Prod.snd).zip r.ci).map (fun p => (p.1, p.2.1, p.2.2))

/-- Ascending order in the regressor value on band rows. -/
def keyLe (a b : ℚ × ℚ × ℚ) : Prop := a.1 ≤ b.1

instance : DecidableRel keyLe := fun a b => inferInstanceAs (Decidable (a.1 ≤ b.1))

instance : IsTotal (ℚ × ℚ × ℚ) keyLe := ⟨fun a b => le_total a.1 b.1⟩

instance : IsTrans (ℚ × ℚ × ℚ) keyLe := ⟨fun _ _ _ h1 h2 => le_trans h1 h2⟩

/-- The shaded-band dataset handed to ax.fill_between (lines 193-205):
sorted_indices = np.argsort(x[:, 1]) and the arrays x[:, 1], ci[:, 0],
ci[:, 1] each reindexed by it.  Reindexing the three arrays by the one
permutation is the same as sorting the zipped rows by the x key: rows
with equal keys are identical here (y_hat_i and the interval bounds are
functions of the value x_i given the sample statistics), so every
x-sorted rearrangement of the rows is the same list. -/
def bandData (r : SimResult) : List (ℚ × ℚ × ℚ) :=
  List.insertionSort keyLe (bandRows r)

/-- Ascending order in the regressor value on (x, y_hat) pairs. -/
def pairKeyLe (a b : ℚ × ℚ) : Prop := a.1 ≤ b.1

instance : DecidableRel pairKeyLe := fun a b => inferInstanceAs (Decidable (a.1 ≤ b.1))

/-- Python's random.randint(a, b) (line 247): an integer drawn from the
inclusive range [a, b] (both endpoints occur).  The hidden state of the
stdlib generator is passed explicitly as g; the draw is g reduced modulo
the range size b - a + 1, which reaches every value of [a, b]. -/
def randint (a b g : ℕ) : ℕ := a + g % (b - a + 1)

/-- The resample handler (lines 246-250): draw random_seed =
random.randint(0, 10000) and call gen_lin_data again with the slider
parameters unchanged and the fresh seed; the pair returned is the new
seed together with the new bundle. -/
def resample (b0 b1 sd : ℚ) (N g : ℕ) : ℕ × Except GenError SimResult :=
  (randint 0 10000 g, gen_lin_data b0 b1 sd N (randint 0 10000 g))

/-- Sum of squared entries of a list. -/
def sumSq (l : List ℚ) : ℚ := (l.map (fun v => v ^ 2)).sum

/-- Mean of a list, np.mean on a concrete array. -/
def listMean (l : List ℚ) : ℚ := l.sum / l.length

/-- Total sum of squares of a result's response around its mean. -/
def SST (r : SimResult) : ℚ := sumSq (r.y.map (fun v => v - listMean r.y))

/-- Regression sum of squares of a result: fitted values around the
response mean. -/
def SSR (r : SimResult) : ℚ := sumSq (r.yHat.map (fun v => v - listMean r.y))

/-- Error sum of squares of a result: the squared residuals. -/
def SSE (r : SimResult) : ℚ := sumSq r.resid

/-- Unfolding equation for the generator stream at a successor index. -/
lemma rngAt_succ (s k : ℕ) : rngAt s (k + 1) = lcg (rngAt s k) := rfl

/-- Seed 0 is a fixed point of the modelled generator: every state is 0. -/
lemma rngAt_zero_seed : ∀ k, rngAt 0 k = 0
  | 0 => rfl
  | k + 1 => by rw [rngAt_succ, rngAt_zero_seed k]; rfl

/-- Under the pathological seed 0 every regressor draw is the same value. -/
lemma xval_zero_seed (i : ℕ) : xval 0 i = -10 := by
  rw [xval, uniform, rngAt_zero_seed]
  norm_num

/-- Deviations from the mean sum to zero. -/
lemma sum_sub_npMean (n : ℕ) (hn : (n : ℚ) ≠ 0) (f : ℕ → ℚ) :
    ∑ i in Finset.range n, (f i - npMean n f) = 0 := by
  rw [Finset.sum_sub_distrib, Finset.sum_const, Finset.card_range, nsmul_eq_mul, npMean,
    mul_comm, div_mul_cancel₀ _ hn, sub_self]

/-- Expansion of the centered cross moment into raw sums. -/
lemma sxyOf_eq (n : ℕ) (x y : ℕ → ℚ) (hn : (n : ℚ) ≠ 0) :
    sxyOf n x y = (∑ i in Finset.range n, x i * y i)
      - (∑ i in Finset.range n, x i) * (∑ i in Finset.range n, y i) / n := by
  have h2 : ∀ i ∈ Finset.range n, (x i - npMean n x) * (y i - npMean n y)
      = x i * y i - npMean n x * y i - npMean n y * x i + npMean n x * npMean n y := by
    intro i _
    ring
  rw [sxyOf, Finset.sum_congr rfl h2]
  rw [Finset.sum_add_distrib, Finset.sum_sub_distrib, Finset.sum_sub_distrib,
    ← Finset.mul_sum, ← Finset.mul_sum, Finset.sum_const, Finset.card_range, nsmul_eq_mul]
  simp only [npMean]
  field_simp
  ring

/-- Expansion of the centered second moment into raw sums. -/
lemma sxxOf_eq (n : ℕ) (x : ℕ → ℚ) (hn : (n : ℚ) ≠ 0) :
    sxxOf n x = (∑ i in Finset.range n, x i ^ 2)
      - (∑ i in Finset.range n, x i) ^ 2 / n := by
  have h1 : sxxOf n x = sxyOf n x x := by
    rw [sxxOf, sxyOf]
    exact Finset.sum_congr rfl fun i _ => by ring
  rw [h1, sxyOf_eq n x x hn]
  have h2 : ∑ i in Finset.range n, x i * x i = ∑ i in Finset.range n, x i ^ 2 :=
    Finset.sum_congr rfl fun i _ => by ring
  rw [h2]
  ring

/-- First normal equation of the fit: the residuals sum to zero. -/
lemma sum_residOf (n : ℕ) (x y : ℕ → ℚ) (hn : (n : ℚ) ≠ 0) :
    ∑ i in Finset.range n, residOf n x y i = 0 := by
  have h1 : ∑ i in Finset.range n, residOf n x y i
      = (∑ i in Finset.range n, y i) - (n : ℚ) * b0Of n x y
        - b1Of n x y * ∑ i in Finset.range n, x i := by
    simp only [residOf, yhatOf]
    rw [Finset.sum_sub_distrib, Finset.sum_add_distrib, Finset.sum_const,
      Finset.card_range, nsmul_eq_mul, ← Finset.mul_sum]
    ring
  rw [h1]
  simp only [b0Of, npMean]
  field_simp

/-- Second normal equation of the fit: the residuals are orthogonal to the
regressor, covering the singular case through the division convention. -/
lemma sum_residOf_mul_x (n : ℕ) (x y : ℕ → ℚ) (hn : (n : ℚ) ≠ 0) :
    ∑ i in Finset.range n, residOf n x y i * x i = 0 := by
  have h1 : ∑ i in Finset.range n, residOf n x y i * x i
      = sxyOf n x y - b1Of n x y * sxxOf n x := by
    have h2 : ∀ i ∈ Finset.range n, residOf n x y i * x i
        = x i * y i - b0Of n x y * x i - b1Of n x y * x i ^ 2 := by
      intro i _
      simp only [residOf, yhatOf]
      ring
    rw [Finset.sum_congr rfl h2, Finset.sum_sub_distrib, Finset.sum_sub_distrib,
      ← Finset.mul_sum, ← Finset.mul_sum, sxyOf_eq n x y hn, sxxOf_eq n x hn]
    simp only [b0Of, npMean]
    field_simp
    ring
  rw [h1]
  rcases eq_or_ne (sxxOf n x) 0 with hs | hs
  · have hb1 : b1Of n x y = 0 := by rw [b1Of, hs, div_zero]
    have hx : ∀ i ∈ Finset.range n, x i - npMean n x = 0 := by
      intro i hi
      have hsum : ∑ j in Finset.range n, (x j - npMean n x) ^ 2 = 0 := by
        rw [← sxxOf, hs]
      have h0 : (x i - npMean n x) ^ 2 = 0 :=
        (Finset.sum_eq_zero_iff_of_nonneg fun j _ => sq_nonneg _).mp hsum i hi
      exact sq_eq_zero_iff.mp h0
    have hsxy : sxyOf n x y = 0 := by
      rw [sxyOf]
      exact Finset.sum_eq_zero fun i hi => by rw [hx i hi, zero_mul]
    rw [hb1, hsxy]
    ring
  · rw [b1Of, div_mul_cancel₀ _ hs, sub_self]

/-- The residuals are orthogonal to the fitted values. -/
lemma sum_residOf_mul_yhat (n : ℕ) (x y : ℕ → ℚ) (hn : (n : ℚ) ≠ 0) :
    ∑ i in Finset.range n, residOf n x y i * yhatOf n x y i = 0 := by
  have h2 : ∀ i ∈ Finset.range n, residOf n x y i * yhatOf n x y i
      = b0Of n x y * residOf n x y i + b1Of n x y * (residOf n x y i * x i) := by
    intro i _
    rw [yhatOf]
    ring
  rw [Finset.sum_congr rfl h2, Finset.sum_add_distrib, ← Finset.mul_sum, ← Finset.mul_sum,
    sum_residOf n x y hn, sum_residOf_mul_x n x y hn, mul_zero, mul_zero, add_zero]

/-- Analysis-of-variance decomposition at the level of index functions. -/
lemma decompOf (n : ℕ) (x y : ℕ → ℚ) :
    ssTotOf n y = ssrOf n x y + sseOf n x y := by
  rcases Nat.eq_zero_or_pos n with h0 | hpos
  · subst h0
    simp [ssTotOf, ssrOf, sseOf]
  · have hn : (n : ℚ) ≠ 0 := Nat.cast_ne_zero.mpr hpos.ne'
    have key : ∀ i ∈ Finset.range n, (y i - npMean n y) ^ 2
        = (yhatOf n x y i - npMean n y) ^ 2 + residOf n x y i ^ 2
          + 2 * (residOf n x y i * yhatOf n x y i)
          - 2 * npMean n y * residOf n x y i := by
      intro i _
      have hr : y i = yhatOf n x y i + residOf n x y i := by
        rw [residOf]
        ring
      rw [hr]
      ring
    rw [ssTotOf, Finset.sum_congr rfl key, Finset.sum_sub_distrib, Finset.sum_add_distrib,
      Finset.sum_add_distrib, ← Finset.mul_sum, ← Finset.mul_sum,
      sum_residOf n x y hn, sum_residOf_mul_yhat n x y hn, mul_zero, mul_zero]
    rw [ssrOf, sseOf]
    ring

/-- Adding a constant to every response shifts the mean by that constant. -/
lemma npMean_shift (n : ℕ) (f : ℕ → ℚ) (c : ℚ) (hn : (n : ℚ) ≠ 0) :
    npMean n (fun i => f i + c) = npMean n f + c := by
  rw [npMean, npMean, Finset.sum_add_distrib, Finset.sum_const, Finset.card_range,
    nsmul_eq_mul, add_div, mul_comm, mul_div_assoc, div_self hn, mul_one]

/-- The computed R-squared is invariant under a constant shift of the
response: the shift moves the mean, intercept and fitted values together
and leaves residuals and centered variation unchanged. -/
lemma rSqOf_shift (n : ℕ) (x y : ℕ → ℚ) (c : ℚ) (hn : (n : ℚ) ≠ 0) :
    rSqOf n x (fun i => y i + c) = rSqOf n x y := by
  have hm := npMean_shift n y c hn
  have hsxy : sxyOf n x (fun i => y i + c) = sxyOf n x y := by
    rw [sxyOf, sxyOf]
    refine Finset.sum_congr rfl fun i _ => ?_
    simp only [hm]
    ring
  have hb1 : b1Of n x (fun i => y i + c) = b1Of n x y := by
    rw [b1Of, b1Of, hsxy]
  have hb0 : b0Of n x (fun i => y i + c) = b0Of n x y + c := by
    rw [b0Of, b0Of, hm, hb1]
    ring
  have hres : ∀ i, residOf n x (fun j => y j + c) i = residOf n x y i := by
    intro i
    rw [residOf, residOf, yhatOf, yhatOf]
    simp only [hb0, hb1]
    ring
  have hsse : sseOf n x (fun j => y j + c) = sseOf n x y := by
    rw [sseOf, sseOf]
    exact Finset.sum_congr rfl fun i _ => by rw [hres i]
  have hsst : ssTotOf n (fun j => y j + c) = ssTotOf n y := by
    rw [ssTotOf, ssTotOf]
    refine Finset.sum_congr rfl fun i _ => ?_
    simp only [hm]
    ring
  rw [rSqOf, rSqOf, hsse, hsst]

/-- Sum of a mapped range as a Finset sum. -/
lemma sum_map_range (f : ℕ → ℚ) (n : ℕ) :
    ((List.range n).map f).sum = ∑ i in Finset.range n, f i := by
  induction n with
  | zero => simp
  | succ m ih =>
    rw [List.range_succ, List.map_append, List.sum_append, Finset.sum_range_succ, ih]
    simp

/-- Mean of a mapped range as the index-level mean. -/
lemma listMean_map_range (n : ℕ) (f : ℕ → ℚ) :
    listMean ((List.range n).map f) = npMean n f := by
  rw [listMean, sum_map_range, List.length_map, List.length_range, npMean]

/-- Sum of squares of a mapped range as a Finset sum. -/
lemma sumSq_map_range (n : ℕ) (f : ℕ → ℚ) :
    sumSq ((List.range n).map f) = ∑ i in Finset.range n, f i ^ 2 := by
  rw [sumSq, List.map_map, sum_map_range]
  rfl

/-- The response list of a bundle, unfolded. -/
lemma mkResult_y (b0 b1 sd : ℚ) (N rseed : ℕ) :
    (mkResult b0 b1 sd N rseed).y = (List.range N).map (yval b0 b1 sd N rseed) := rfl

/-- The fitted-value list of a bundle, unfolded. -/
lemma mkResult_yHat (b0 b1 sd : ℚ) (N rseed : ℕ) :
    (mkResult b0 b1 sd N rseed).yHat
      = (List.range N).map (yhatOf N (xval rseed) (yval b0 b1 sd N rseed)) := rfl

/-- The residual list of a bundle, unfolded. -/
lemma mkResult_resid (b0 b1 sd : ℚ) (N rseed : ℕ) :
    (mkResult b0 b1 sd N rseed).resid
      = (List.range N).map (residOf N (xval rseed) (yval b0 b1 sd N rseed)) := rfl

/-- The design-matrix rows of a bundle, unfolded. -/
lemma mkResult_xMat (b0 b1 sd : ℚ) (N rseed : ℕ) :
    (mkResult b0 b1 sd N rseed).xMat
      = (List.range N).map (fun i => ((1 : ℚ), xval rseed i)) := rfl

/-- The total sum of squares of a bundle is the index-level ss_tot. -/
lemma SST_mk (b0 b1 sd : ℚ) (N rseed : ℕ) :
    SST (mkResult b0 b1 sd N rseed) = ssTotOf N (yval b0 b1 sd N rseed) := by
  rw [SST, mkResult_y, listMean_map_range, List.map_map, sumSq_map_range, ssTotOf]
  rfl

/-- The regression sum of squares of a bundle is the index-level form. -/
lemma SSR_mk (b0 b1 sd : ℚ) (N rseed : ℕ) :
    SSR (mkResult b0 b1 sd N rseed)
      = ssrOf N (xval rseed) (yval b0 b1 sd N rseed) := by
  rw [SSR, mkResult_yHat, mkResult_y, listMean_map_range, List.map_map, sumSq_map_range, ssrOf]
  rfl

/-- The error sum of squares of a bundle is the index-level sse. -/
lemma SSE_mk (b0 b1 sd : ℚ) (N rseed : ℕ) :
    SSE (mkResult b0 b1 sd N rseed)
      = sseOf N (xval rseed) (yval b0 b1 sd N rseed) := by
  rw [SSE, mkResult_resid, sumSq_map_range, sseOf]

/-- C1: two invocations of gen_lin_data with identical parameters,
including the identical seed, return identical results: the generator is
re-seeded from the passed seed at entry (line 57), so the whole bundle -
design matrix, response, fitted values, confidence intervals, residual
standard error and coefficient estimates - is a pure function of the
arguments. -/
theorem generate_deterministic (b0 b0' b1 b1' sd sd' : ℚ) (N N' rseed rseed' : ℕ)
    (h0 : b0 = b0') (h1 : b1 = b1') (h2 : sd = sd') (h3 : N = N') (h4 : rseed = rseed') :
    gen_lin_data b0 b1 sd N rseed = gen_lin_data b0' b1' sd' N' rseed' ∧
    mkResult b0 b1 sd N rseed = mkResult b0' b1' sd' N' rseed' := by
  subst h0
  subst h1
  subst h2
  subst h3
  subst h4
  exact ⟨rfl, rfl⟩

/-- Witness for C1 at the concrete parameters (0, 0, 1, 2, 5). -/
theorem generate_deterministic_wit :
    gen_lin_data 0 0 1 2 5 = gen_lin_data 0 0 1 2 5 ∧
    mkResult 0 0 1 2 5 = mkResult 0 0 1 2 5 :=
  generate_deterministic 0 0 0 0 1 1 2 2 5 5 rfl rfl rfl rfl rfl

/-- C2 counterexample: the routine does not validate its inputs.  With
sampleSize 2 < 3 it returns a bundle instead of failing with
InvalidSampleSize, and with errorStdDev 0 it returns a bundle instead of
failing with InvalidVariance. -/
theorem no_input_validation_cex :
    gen_lin_data 0 0 1 2 0 ≠ Except.error GenError.invalidSampleSize ∧
    gen_lin_data 0 0 0 10 0 ≠ Except.error GenError.invalidVariance := by
  constructor
  · rw [gen_lin_data, if_neg (by norm_num : ¬ (1 : ℚ) < 0)]
    exact fun hcon => Except.noConfusion hcon
  · rw [gen_lin_data, if_neg (by norm_num : ¬ (0 : ℚ) < 0)]
    exact fun hcon => Except.noConfusion hcon

/-- C2 amended: the engine performs no defensive validation.  Every input
with a nonnegative error standard deviation returns a bundle normally,
whatever the sample size; the only failure is the normal sampler's
ValueError on a negative scale. -/
theorem no_input_validation (b0 b1 sd : ℚ) (N rseed : ℕ) (h : 0 ≤ sd) :
    gen_lin_data b0 b1 sd N rseed = Except.ok (mkResult b0 b1 sd N rseed) := by
  rw [gen_lin_data, if_neg (not_lt.mpr h)]

/-- Witness for the amended C2 at sd = 0 and sampleSize 2. -/
theorem no_input_validation_wit :
    (0 : ℚ) ≤ 0 ∧ gen_lin_data 0 0 0 2 0 = Except.ok (mkResult 0 0 0 2 0) :=
  ⟨le_refl 0, no_input_validation 0 0 0 2 0 (le_refl 0)⟩

/-- Constant response instance for the degenerate-variation case: with
slope 0 and error scale 0 every response value equals the intercept. -/
lemma yval_const_c3 : yval 5 0 0 2 1 = fun _ => (5 : ℚ) := by
  funext i
  simp [yval, epsval]

/-- The constant-response instance has zero total variation. -/
lemma ssTot_const_c3 : ssTotOf 2 (yval 5 0 0 2 1) = 0 := by
  rw [yval_const_c3]
  norm_num [ssTotOf, npMean, Finset.sum_range_succ]

/-- C3 counterexample: on a generated dataset with zero total variation
the computed R-squared is not 0 (the unguarded 1 - ss_res/ss_tot with the
rational division convention gives 1; the floating-point source produces
NaN there, and no branch defines it to 0). -/
theorem rsq_zero_sst_cex :
    ssTotOf 2 (yval 5 0 0 2 1) = 0 ∧ (mkResult 5 0 0 2 1).rSq ≠ 0 := by
  refine ⟨ssTot_const_c3, ?_⟩
  have h1 : (mkResult 5 0 0 2 1).rSq = rSqOf 2 (xval 1) (yval 5 0 0 2 1) := rfl
  rw [h1, rSqOf, ssTot_const_c3, div_zero, sub_zero]
  norm_num

/-- C3 amended: the code has no zero-variation guard; whenever the total
variation ss_tot is zero the unguarded formula 1 - ss_res/ss_tot yields 1
under the embedding's division-by-zero convention (NaN in the
floating-point source), never the value 0 the policy asks for. -/
theorem rsq_zero_sst (b0 b1 sd : ℚ) (N rseed : ℕ)
    (h : ssTotOf N (yval b0 b1 sd N rseed) = 0) :
    (mkResult b0 b1 sd N rseed).rSq = 1 := by
  have h1 : (mkResult b0 b1 sd N rseed).rSq
      = rSqOf N (xval rseed) (yval b0 b1 sd N rseed) := rfl
  rw [h1, rSqOf, h, div_zero, sub_zero]

/-- Witness for the amended C3 at the zero-variation instance. -/
theorem rsq_zero_sst_wit :
    ssTotOf 2 (yval 5 0 0 2 1) = 0 ∧ (mkResult 5 0 0 2 1).rSq = 1 :=
  ⟨ssTot_const_c3, rsq_zero_sst 5 0 0 2 1 ssTot_const_c3⟩

/-- Concrete generator states after one and two steps from seed 1. -/
lemma rngAt_one_1 : rngAt 1 1 = 1117952617 := rfl

/-- Concrete generator state after three steps from seed 1. -/
lemma rngAt_one_2 : rngAt 1 2 = 8240309 := rfl

/-- At seed 1 the second regressor draw exceeds the third. -/
lemma xval_one_decreasing : ¬ xval 1 1 ≤ xval 1 2 := by
  rw [xval, xval, uniform, uniform, rngAt_one_1, rngAt_one_2]
  norm_num

/-- C4 counterexample: the fitted-line dataset handed to the renderer is
in draw order, not ordered by x ascending: at seed 1 with three points
the x values decrease between positions 1 and 2. -/
theorem fitted_line_sorted_cex :
    ¬ List.Sorted pairKeyLe (fittedLineData (mkResult 0 0 1 3 1)) := by
  intro hs
  have hl : fittedLineData (mkResult 0 0 1 3 1)
      = [(xval 1 0, yhatOf 3 (xval 1) (yval 0 0 1 3 1) 0),
         (xval 1 1, yhatOf 3 (xval 1) (yval 0 0 1 3 1) 1),
         (xval 1 2, yhatOf 3 (xval 1) (yval 0 0 1 3 1) 2)] := rfl
  rw [hl, List.sorted_cons, List.sorted_cons] at hs
  exact xval_one_decreasing (hs.2.1 _ (List.mem_singleton.mpr rfl))

/-- C4 amended: it is the shaded-band dataset (x, ci_lower, ci_upper) of
lines 193-205 that is ordered by x ascending for every generated dataset;
the fitted-line pairs stay in draw order. -/
theorem band_sorted_by_x (b0 b1 sd : ℚ) (N rseed : ℕ) :
    List.Sorted keyLe (bandData (mkResult b0 b1 sd N rseed)) :=
  List.sorted_insertionSort keyLe (bandRows (mkResult b0 b1 sd N rseed))

/-- C5 counterexample: the resample draw is not confined to [0, 10000):
Python's random.randint(0, 10000) includes both endpoints, and generator
state 10000 yields the seed 10000 itself. -/
theorem resample_seed_cex :
    (resample 0 0 1 10 10000).1 = 10000 ∧ ¬ (resample 0 0 1 10 10000).1 < 10000 := by
  constructor
  · rfl
  · rw [show (resample 0 0 1 10 10000).1 = 10000 from rfl]
    omega

/-- C5 amended: on every activation the freshly drawn seed lies in the
inclusive range [0, 10000] (the lower bound holds since the seed is a
natural number), and gen_lin_data is re-invoked with the same slider
parameters and exactly that new seed. -/
theorem resample_seed_range (b0 b1 sd : ℚ) (N g : ℕ) :
    (resample b0 b1 sd N g).1 ≤ 10000 ∧
    (resample b0 b1 sd N g).2 = gen_lin_data b0 b1 sd N ((resample b0 b1 sd N g).1) := by
  constructor
  · show randint 0 10000 g ≤ 10000
    rw [randint]
    omega
  · rfl

/-- C6: for every valid input with sampleSize at least 3, the squared
residual standard error times the degrees of freedom n - 2 recovers the
sum of squared residuals exactly. -/
theorem resid_stderr_dof (b0 b1 sd : ℚ) (N rseed : ℕ) (h : 3 ≤ N) :
    (mkResult b0 b1 sd N rseed).sSq * ((N : ℚ) - 2) = SSE (mkResult b0 b1 sd N rseed) := by
  rw [SSE_mk]
  have h1 : (mkResult b0 b1 sd N rseed).sSq
      = sSqOf N (xval rseed) (yval b0 b1 sd N rseed) := rfl
  rw [h1, sSqOf]
  have h2 : ((N : ℚ) - 2) ≠ 0 := by
    have h3 : (3 : ℚ) ≤ (N : ℚ) := by exact_mod_cast h
    linarith
  rw [div_mul_cancel₀ _ h2]

/-- Witness for C6 at sample size 3, seed 0. -/
theorem resid_stderr_dof_wit :
    3 ≤ 3 ∧ (mkResult 0 0 0 3 0).sSq * (((3 : ℕ) : ℚ) - 2) = SSE (mkResult 0 0 0 3 0) :=
  ⟨le_refl 3, resid_stderr_dof 0 0 0 3 0 (le_refl 3)⟩

/-- C7: the analysis-of-variance identity SST = SSR + SSE holds exactly
for every dataset generated by the routine and its OLS fit. -/
theorem sst_eq_ssr_add_sse (b0 b1 sd : ℚ) (N rseed : ℕ) :
    SST (mkResult b0 b1 sd N rseed)
      = SSR (mkResult b0 b1 sd N rseed) + SSE (mkResult b0 b1 sd N rseed) := by
  rw [SST_mk, SSR_mk, SSE_mk]
  exact decompOf N (xval rseed) (yval b0 b1 sd N rseed)

/-- C8: holding slope, error scale, sample size and seed fixed, the
computed R-squared is the same for every pair of intercept values: the
intercept shifts the response by a constant given identical draws, and
the centered quantities are unchanged. -/
theorem rsq_intercept_invariant (b0 b0' b1 sd : ℚ) (N rseed : ℕ) (h : 1 ≤ N) :
    (mkResult b0 b1 sd N rseed).rSq = (mkResult b0' b1 sd N rseed).rSq := by
  have hn : (N : ℚ) ≠ 0 := Nat.cast_ne_zero.mpr (by omega)
  have h1 : (mkResult b0 b1 sd N rseed).rSq
      = rSqOf N (xval rseed) (yval b0 b1 sd N rseed) := rfl
  have h2 : (mkResult b0' b1 sd N rseed).rSq
      = rSqOf N (xval rseed) (yval b0' b1 sd N rseed) := rfl
  rw [h1, h2]
  have hy : yval b0' b1 sd N rseed = fun i => yval b0 b1 sd N rseed i + (b0' - b0) := by
    funext i
    simp only [yval]
    ring
  rw [hy, rSqOf_shift N (xval rseed) (yval b0 b1 sd N rseed) (b0' - b0) hn]

/-- Witness for C8 at intercepts 0 and 7, sample size 1, seed 0. -/
theorem rsq_intercept_invariant_wit :
    1 ≤ 1 ∧ (mkResult 0 0 0 1 0).rSq = (mkResult 7 0 0 1 0).rSq :=
  ⟨le_refl 1, rsq_intercept_invariant 0 7 0 0 1 0 (le_refl 1)⟩

/-- The degenerate seed 0 produces identical regressor draws, so the
centered second moment of the design vanishes. -/
lemma sxx_seed_zero : sxxOf 3 (xval 0) = 0 := by
  norm_num [sxxOf, xval_zero_seed, npMean, Finset.sum_range_succ]

/-- C9 counterexample: at seed 0 every regressor draw coincides, the
design matrix is singular (Sxx = 0), and the routine still returns a
bundle normally: no ComputationError is surfaced. -/
theorem no_singularity_error_cex :
    sxxOf 3 (xval 0) = 0 ∧
    gen_lin_data 0 0 1 3 0 = Except.ok (mkResult 0 0 1 3 0) := by
  refine ⟨sxx_seed_zero, ?_⟩
  rw [gen_lin_data, if_neg (by norm_num : ¬ (1 : ℚ) < 0)]

/-- C9 amended: the routine performs no singularity check: even when the
regressor draws make the design matrix exactly singular, any input with
nonnegative error scale returns a bundle normally, the least-squares step
silently producing coefficients instead of raising ComputationError. -/
theorem no_singularity_error (b0 b1 sd : ℚ) (N rseed : ℕ)
    (h : 0 ≤ sd) (hsing : sxxOf N (xval rseed) = 0) :
    gen_lin_data b0 b1 sd N rseed = Except.ok (mkResult b0 b1 sd N rseed) := by
  rw [gen_lin_data, if_neg (not_lt.mpr h)]

/-- Witness for the amended C9 at the degenerate seed 0. -/
theorem no_singularity_error_wit :
    (0 : ℚ) ≤ 1 ∧ sxxOf 3 (xval 0) = 0 ∧
    gen_lin_data 0 0 1 3 0 = Except.ok (mkResult 0 0 1 3 0) :=
  ⟨by norm_num, sxx_seed_zero, no_singularity_error 0 0 1 3 0 (by norm_num) sxx_seed_zero⟩

/-- C10: for every sample size of at least one, the bundle is
shape-consistent: response, fitted values and confidence intervals have
exactly N entries each, and the design matrix has N rows of two entries
whose first component is identically 1. -/
theorem result_shapes (b0 b1 sd : ℚ) (N rseed : ℕ) (h : 1 ≤ N) :
    (mkResult b0 b1 sd N rseed).y.length = N ∧
    (mkResult b0 b1 sd N rseed).yHat.length = N ∧
    (mkResult b0 b1 sd N rseed).ci.length = N ∧
    (mkResult b0 b1 sd N rseed).xMat.length = N ∧
    ∀ p ∈ (mkResult b0 b1 sd N rseed).xMat, p.1 = 1 := by
  refine ⟨?_, ?_, ?_, ?_, ?_⟩
  · rw [mkResult_y, List.length_map, List.length_range]
  · rw [mkResult_yHat, List.length_map, List.length_range]
  · show ((List.range N).map _).length = N
    rw [List.length_map, List.length_range]
  · rw [mkResult_xMat, List.length_map, List.length_range]
  · intro p hp
    rw [mkResult_xMat] at hp
    obtain ⟨i, _, hpe⟩ := List.mem_map.mp hp
    rw [← hpe]

/-- Witness for C10 at sample size 1. -/
theorem result_shapes_wit :
    1 ≤ 1 ∧
    ((mkResult 0 0 0 1 0).y.length = 1 ∧
     (mkResult 0 0 0 1 0).yHat.length = 1 ∧
     (mkResult 0 0 0 1 0).ci.length = 1 ∧
     (mkResult 0 0 0 1 0).xMat.length = 1 ∧
     ∀ p ∈ (mkResult 0 0 0 1 0).xMat, p.1 = 1) :=
  ⟨le_refl 1, result_shapes 0 0 0 1 0 (le_refl 1)⟩
